import Mathlib

/-!
Verification of the debt-ledger Telegram bot (`bot_ar.py`).

The development shallowly embeds the program:
* the SQLite table `debts(name PRIMARY KEY, total REAL, paid REAL)` becomes a
  list of `Person` rows; SQL statements become the corresponding list
  operations;
* monetary values (Python `float` / SQLite `REAL`) are modelled as exact
  rationals in the ledger model; the binary64 rounding that the Python
  runtime actually performs is modelled separately by `roundB64` and is used
  for the numerical-representation claim;
* the per-user `context.user_data` dictionary becomes the `Session`
  structure; the `on_text` handler becomes a pure step function producing
  the next session, the next database and the list of reply directives.
-/

/-- Button labels from `bot_ar.py` (lines 11-18). -/
def MAIN_MENU : String := "قائمة الأسماء"

/-- Label of the add-new-name button (`bot_ar.py` line 12). -/
def ADD_NEW_NAME : String := "إضافة اسم جديد"

/-- Label of the list-all button (`bot_ar.py` line 13). -/
def LIST_ALL : String := "الكل"

/-- Label of the new-debt button (`bot_ar.py` line 14). -/
def NEW_DEBT : String := "دين جديد"

/-- Label of the payment button (`bot_ar.py` line 15). -/
def PAYMENT : String := "سداد"

/-- Label of the status button (`bot_ar.py` line 16). -/
def STATUS : String := "الحالة"

/-- Label of the delete button (`bot_ar.py` line 17). -/
def DELETE_PERSON_BTN : String := "حذف الشخص"

/-- Label of the back button (`bot_ar.py` line 18). -/
def BACK : String := "رجوع"

/-- Rational addition routed through `Rat.divInt` so that concrete instances
reduce in the kernel (`Rat.add` is `@[irreducible]`); provably equal to `+`
(`qadd_eq`). -/
def qadd (a b : ℚ) : ℚ :=
  Rat.divInt (a.num * b.den + b.num * a.den) ((a.den : ℤ) * b.den)

/-- Rational subtraction via `qadd`; provably equal to `-` (`qsub_eq`). -/
def qsub (a b : ℚ) : ℚ := qadd a (-b)

/-- One row of the `debts` table: `(name, total, paid)`. -/
structure Person where
  name : String
  total : ℚ
  paid : ℚ
deriving DecidableEq, Repr

/-- The `debts` table, in row order (inserts append). -/
abbrev Db := List Person

/-- Model of `get_person` (`bot_ar.py` lines 61-66): `SELECT total, paid FROM debts
WHERE name=?` returns the first matching row, or `None`. -/
def get_person (db : Db) (name : String) : Option (ℚ × ℚ) :=
  match db.find? (fun p => p.name == name) with
  | some p => some (p.total, p.paid)
  | none => none

/-- Model of `add_new_person` (`bot_ar.py` lines 68-75): refuse if a row with the
name exists, otherwise insert `(name, amount, 0)`.  Returns the success
flag together with the new table. -/
def add_new_person (db : Db) (name : String) (amount : ℚ) : Bool × Db :=
  if (get_person db name).isSome then (false, db)
  else (true, db ++ [⟨name, amount, 0⟩])

/-- Model of `increase_debt` (`bot_ar.py` lines 77-80): `UPDATE debts SET
total = total + ? WHERE name = ?`.  The Python function returns `None`;
there is no error signal, an absent name makes the update a no-op. -/
def increase_debt (db : Db) (name : String) (amount : ℚ) : Db :=
  db.map (fun p => if p.name = name then { p with total := qadd p.total amount } else p)

/-- Model of `add_payment` (`bot_ar.py` lines 82-95): read the row, reject with the
remaining-before-payment when `new_paid > total`, otherwise write
`paid = new_paid`.  Returns `(ok, reported value, new table)`. -/
def add_payment (db : Db) (name : String) (amount : ℚ) : Bool × ℚ × Db :=
  match get_person db name with
  | none => (false, 0, db)
  | some (total, paid) =>
    let new_paid := qadd paid amount
    if total < new_paid then (false, qsub total paid, db)
    else (true, qsub total new_paid,
      db.map (fun p => if p.name = name then { p with paid := new_paid } else p))

/-- Model of `delete_person` (`bot_ar.py` lines 97-101): `DELETE FROM debts WHERE
name = ?`; the result is `rowcount > 0`. -/
def delete_person (db : Db) (name : String) : Bool × Db :=
  let db2 := db.filter (fun p => !(p.name == name))
  (db2.length < db.length, db2)

/-- Insert a string into a sorted list of strings (structural recursion, so
that concrete menus reduce in the kernel). -/
def insertSorted (a : String) : List String → List String
  | [] => [a]
  | b :: bs => if b < a then b :: insertSorted a bs else a :: b :: bs

/-- Insertion sort on strings, modelling SQLite `ORDER BY name`. -/
def sortNames : List String → List String
  | [] => []
  | a :: as => insertSorted a (sortNames as)

/-- Model of `get_names` (`bot_ar.py` lines 56-59): `SELECT name FROM debts ORDER BY
name`. -/
def get_names (db : Db) : List String :=
  sortNames (db.map Person.name)

/-- The decimal value of a digit character.  CPython's `float(str)` first
transforms every Unicode decimal digit (category `Nd`) to its ASCII form
and then parses; this function fuses the two steps for the digit families
relevant to this program: ASCII `0-9`, Arabic-Indic `U+0660-U+0669`,
Extended Arabic-Indic `U+06F0-U+06F9` and fullwidth `U+FF10-U+FF19`. -/
def digitVal? (c : Char) : Option ℕ :=
  if 0x30 ≤ c.toNat ∧ c.toNat ≤ 0x39 then some (c.toNat - 0x30)
  else if 0x660 ≤ c.toNat ∧ c.toNat ≤ 0x669 then some (c.toNat - 0x660)
  else if 0x6F0 ≤ c.toNat ∧ c.toNat ≤ 0x6F9 then some (c.toNat - 0x6F0)
  else if 0xFF10 ≤ c.toNat ∧ c.toNat ≤ 0xFF19 then some (c.toNat - 0xFF10)
  else none

/-- Base-10 value of a list of digit characters; `none` if any character is
not a digit glyph.  The empty list has value `0` (emptiness is checked by
the callers, as in the Python grammar). -/
def digitsVal? : List Char → Option ℕ
  | [] => some 0
  | c :: cs =>
    match digitVal? c, digitsVal? cs with
    | some d, some r => some (d * 10 ^ cs.length + r)
    | _, _ => none

/-- The unsigned part of CPython's float-literal grammar restricted to
finite decimal literals without exponent or underscores: `digits`,
`digits.digits`, `digits.` or `.digits`, where a digit is any glyph
accepted by `digitVal?`.  A second decimal point lands in the fractional
part and makes `digitsVal?` fail, as in CPython. -/
def pyfloatUnsigned (cs : List Char) : Option ℚ :=
  match cs.dropWhile (fun c => !(c == '.')) with
  | [] =>
    if (cs.takeWhile (fun c => !(c == '.'))).isEmpty then none
    else (digitsVal? (cs.takeWhile (fun c => !(c == '.')))).map (fun n : ℕ => (n : ℚ))
  | _ :: fp =>
    if (cs.takeWhile (fun c => !(c == '.'))).isEmpty && fp.isEmpty then none
    else (digitsVal? (cs.takeWhile (fun c => !(c == '.')))).bind (fun i =>
      (digitsVal? fp).map (fun f =>
        Rat.divInt ((i * 10 ^ fp.length + f : ℕ) : ℤ) ((10 ^ fp.length : ℕ) : ℤ)))

/-- The result of Python `float(str)`: a finite value (carried exactly as a
rational — the binary64 rounding the runtime then applies is modelled
separately by `roundB64`), a signed infinity, or a nan. -/
inductive PyVal where
  | finite (q : ℚ)
  | inf (neg : Bool)
  | nan
deriving DecidableEq, Repr

/-- Whether a `float` result is a finite number. -/
def PyVal.isFinite : PyVal → Bool
  | .finite _ => true
  | _ => false

/-- Lower-case an ASCII letter (for the case-insensitive `inf`,
`infinity` and `nan` forms of `float`). -/
def lowerChar (c : Char) : Char :=
  if 0x41 ≤ c.toNat ∧ c.toNat ≤ 0x5A then Char.ofNat (c.toNat + 0x20) else c

/-- Case-insensitive comparison with a lower-case word. -/
def lowerEq (cs w : List Char) : Bool :=
  cs.map lowerChar == w

/-- Validate and remove underscores after the first character: as in
Python numeric literals, every `_` must sit directly between two
digits. -/
def stripUS (prev : Char) : List Char → Option (List Char)
  | [] => some []
  | c :: rest =>
    if c = '_' then
      match rest with
      | [] => none
      | d :: _ =>
        if (digitVal? prev).isSome && (digitVal? d).isSome then stripUS prev rest
        else none
    else (stripUS c rest).map (fun l => c :: l)

/-- Validate and remove the underscores of a Python numeric literal
(`none` when an underscore is not between two digits). -/
def stripUnderscores (cs : List Char) : Option (List Char) :=
  match cs with
  | [] => some []
  | c :: rest =>
    if c = '_' then none
    else (stripUS c rest).map (fun l => c :: l)

/-- Base-10 value of a nonempty list of digit characters. -/
def digitsValNE? (cs : List Char) : Option ℕ :=
  if cs.isEmpty then none else digitsVal? cs

/-- The exponent part of a float literal: an optional sign followed by at
least one digit. -/
def parseExpVal (cs : List Char) : Option ℤ :=
  match cs with
  | [] => none
  | c :: rest =>
    if c = '+' then (digitsValNE? rest).map (fun n => (n : ℤ))
    else if c = '-' then (digitsValNE? rest).map (fun n => -(n : ℤ))
    else (digitsValNE? cs).map (fun n => (n : ℤ))

/-- Exact multiplication by a power of ten, via `Rat.divInt`
(kernel-reducible). -/
def mulPow10 (q : ℚ) (i : ℤ) : ℚ :=
  if 0 ≤ i then Rat.divInt (q.num * 10 ^ i.toNat) (q.den : ℤ)
  else Rat.divInt q.num ((q.den : ℤ) * 10 ^ (-i).toNat)

/-- A finite Python float literal after the sign: underscores validated
and removed, then `mantissa [(e|E) exponent]`, with the exact rational
value `mantissa * 10 ^ exponent`.  (The overflow/underflow clamping that
`float` additionally applies far outside the binary64 range, like
`1e400 -> inf`, belongs to the rounding layer modelled by `roundB64` and
is not folded into this exact-value grammar.) -/
def pyfloatFinite (cs : List Char) : Option ℚ :=
  (stripUnderscores cs).bind (fun cs2 =>
    match cs2.dropWhile (fun c => !(c == 'e' || c == 'E')) with
    | [] => pyfloatUnsigned cs2
    | _ :: expPart =>
      (pyfloatUnsigned (cs2.takeWhile (fun c => !(c == 'e' || c == 'E')))).bind (fun m =>
        (parseExpVal expPart).map (fun e => mulPow10 m e)))

/-- A Python float literal after the sign: the case-insensitive words
`inf`, `infinity` and `nan`, or a finite literal.  As in CPython, the
sign is ignored for `nan`. -/
def pyfloatNoSign (cs : List Char) (neg : Bool) : Option PyVal :=
  if lowerEq cs ['i', 'n', 'f'] then some (PyVal.inf neg)
  else if lowerEq cs ['i', 'n', 'f', 'i', 'n', 'i', 't', 'y'] then some (PyVal.inf neg)
  else if lowerEq cs ['n', 'a', 'n'] then some PyVal.nan
  else (pyfloatFinite cs).map (fun q => PyVal.finite (if neg then -q else q))

/-- Optional leading sign in front of a float literal. -/
def pyfloatSigned : List Char → Option PyVal
  | [] => none
  | c :: rest =>
    if c = '+' then pyfloatNoSign rest false
    else if c = '-' then pyfloatNoSign rest true
    else pyfloatNoSign (c :: rest) false

/-- Model of Python `float(s)`: optional sign, then `inf`/`infinity`/
`nan` (case-insensitive) or a decimal literal with optional fraction,
optional exponent and between-digit underscores, over any of the digit
glyph families of `digitVal?`.  `float` also strips surrounding
whitespace, but `parse_amount` always passes an already-stripped string,
so the model omits that second strip. -/
def pyfloat (s : String) : Option PyVal :=
  pyfloatSigned s.data

/-- Python's `amount <= 0` on a float result: `False` for `nan` (IEEE
comparisons with nan are false) and for `+inf`, `True` for `-inf`. -/
def pyLe0 : PyVal → Bool
  | .finite q => decide (q ≤ 0)
  | .inf neg => neg
  | .nan => false

/-- One character of the `str.maketrans` table in `normalize_digits`
(`bot_ar.py` lines 26-28).  The source table is the literal glyph pair
`"٠١٢٣٤٥٦٧٨٩۰۱۲۳۴۵۶۷８٩" -> "01234567890123456789"`: Arabic-Indic
`U+0660-U+0669`, Extended Arabic-Indic `U+06F0-U+06F7`, then — exactly as
in the source — the fullwidth eight `U+FF18` and a duplicated Arabic-Indic
nine `U+0669` instead of `U+06F8`/`U+06F9`. -/
def normalize_digits_char (c : Char) : Char :=
  if c.toNat = 0x660 ∨ c.toNat = 0x6F0 then '0'
  else if c.toNat = 0x661 ∨ c.toNat = 0x6F1 then '1'
  else if c.toNat = 0x662 ∨ c.toNat = 0x6F2 then '2'
  else if c.toNat = 0x663 ∨ c.toNat = 0x6F3 then '3'
  else if c.toNat = 0x664 ∨ c.toNat = 0x6F4 then '4'
  else if c.toNat = 0x665 ∨ c.toNat = 0x6F5 then '5'
  else if c.toNat = 0x666 ∨ c.toNat = 0x6F6 then '6'
  else if c.toNat = 0x667 ∨ c.toNat = 0x6F7 then '7'
  else if c.toNat = 0x668 ∨ c.toNat = 0xFF18 then '8'
  else if c.toNat = 0x669 then '9'
  else c

/-- Model of `normalize_digits` (`bot_ar.py` lines 26-28): `value.translate(table)`. -/
def normalize_digits (s : String) : String :=
  ⟨s.data.map normalize_digits_char⟩

/-- Python whitespace characters recognised by `str.strip()` (the ASCII
ones; the claims only involve these). -/
def isPyWs (c : Char) : Bool :=
  c == ' ' || c == '\t' || c == '\n' || c == '\r' || c == '\x0b' || c == '\x0c'

/-- Model of Python `str.strip()`: drop whitespace from both ends. -/
def pystrip (s : String) : String :=
  ⟨((s.data.dropWhile isPyWs).reverse.dropWhile isPyWs).reverse⟩

/-- Model of `parse_amount` (`bot_ar.py` lines 103-110):
`float(normalize_digits(text.strip()))`, `None` on a parse error or when
`amount <= 0`.  Note that `amount <= 0` is `False` for `nan` and `+inf`,
so those non-finite results pass through, exactly as in the Python
function. -/
def parse_amount (text : String) : Option PyVal :=
  match pyfloat (normalize_digits (pystrip text)) with
  | none => none
  | some amount => if pyLe0 amount then none else some amount

/-- Spec-side reference for the Amount Parsing property, following the
spec's words: the numeric value of a string made of optional surrounding
whitespace, digit glyphs (Latin, Arabic-Indic, Extended Arabic-Indic or
fullwidth forms), and at most one decimal separator; `none` for any other
shape.  This grammar coincides with the unsigned finite-literal case of
the float grammar, so it is expressed with the same combinators. -/
def specDecimalValue? (s : String) : Option ℚ :=
  pyfloatUnsigned (pystrip s).data

/-- The values of the `"pending"` key of `context.user_data`
(`bot_ar.py` lines 20-23). -/
inductive PState where
  | add_name
  | add_name_amount
  | new_debt
  | payment
deriving DecidableEq, Repr

/-- The per-user `context.user_data` dictionary: keys `"pending"`,
`"selected_name"`, `"draft_name"`; `none` models both an absent key and an
explicit `None` value (`dict.get` does not distinguish them). -/
structure Session where
  pending : Option PState
  selected_name : Option String
  draft_name : Option String
deriving DecidableEq, Repr

/-- The cleared dictionary (`context.user_data.clear()`). -/
def Session.empty : Session := ⟨none, none, none⟩

/-- Python truthiness of an optional string (`if selected_name:`): neither
`None` nor the empty string. -/
def isTruthy : Option String → Bool
  | none => false
  | some s => !(s == "")

/-- The reply keyboards (`ReplyKeyboardMarkup`) of `bot_ar.py`
lines 112-124. -/
inductive Menu where
  | main
  | names (ns : List String)
  | personActions
deriving DecidableEq, Repr

/-- One `reply_text` call of `bot_ar.py`, as a tagged directive: each
constructor corresponds to one call site, carrying its numeric and string
payloads. -/
inductive Reply where
  | mainMenuPrompt
  | invalidName
  | askNewName
  | askInitialAmount (name : String)
  | invalidAmount
  | nameExists
  | created (name : String) (amount : ℚ)
  | newDebtAdded (name : String) (amount remaining : ℚ)
  | paymentRejected (remaining : ℚ)
  | paymentDone (remaining : ℚ)
  | emptyList
  | chooseName (names : List String)
  | noDebts
  | allList (rows : List (String × ℚ))
  | selectedName (name : String)
  | chooseFirst
  | askDebtAmount (name : String)
  | askPaymentAmount (name : String)
  | statusOf (name : String) (total paid : ℚ)
  | deleted (name : String)
  | notFound
  | notUnderstood
deriving DecidableEq, Repr

/-- The `reply_markup` each call site attaches (`none` keeps the current
keyboard). -/
def Reply.markup : Reply → Option Menu
  | .mainMenuPrompt => some .main
  | .chooseName ns => some (.names ns)
  | .newDebtAdded _ _ _ => some .personActions
  | .paymentRejected _ => some .personActions
  | .paymentDone _ => some .personActions
  | .selectedName _ => some .personActions
  | .statusOf _ _ _ => some .personActions
  | _ => none

/-- Result of one `on_text` invocation: next session, next table, and the
reply directives sent, in order. -/
structure StepResult where
  session : Session
  db : Db
  replies : List Reply
deriving DecidableEq, Repr

/-- Insert a row into a list of rows sorted by name. -/
def insertPerson (p : Person) : List Person → List Person
  | [] => [p]
  | q :: qs => if q.name < p.name then q :: insertPerson p qs else p :: q :: qs

/-- Sort rows by name, modelling `ORDER BY name` in `show_all`. -/
def sortPersons : List Person → List Person
  | [] => []
  | p :: ps => insertPerson p (sortPersons ps)

/-- Model of `show_all` (`bot_ar.py` lines 136-143): list every row's name and
remaining, ordered by name; a dedicated message if the table is empty. -/
def show_all (db : Db) : Reply :=
  let rows := sortPersons db
  if rows.isEmpty then Reply.noDebts
  else Reply.allList (rows.map (fun p => (p.name, qsub p.total p.paid)))

/-- The `on_text` branch for `pending == STATE_ADD_NAME` (`bot_ar.py`
lines 153-161). -/
def handleAddName (db : Db) (s : Session) (text : String) : StepResult :=
  if text = "" then ⟨s, db, [Reply.invalidName]⟩
  else ⟨{ s with pending := some PState.add_name_amount, draft_name := some text },
        db, [Reply.askInitialAmount text]⟩

/-- The `on_text` branch for `pending == STATE_ADD_NAME_AMOUNT` (`bot_ar.py`
lines 162-182).  The controller model covers finite amounts: for the
non-finite parser results (`nan`, `+inf`) the Python code would pass the
IEEE special value into the store, which the exact-rational table cannot
represent, so those inputs are grouped with the invalid-amount reprompt
here (and the session claims are stated for finite amounts). -/
def handleAddNameAmount (db : Db) (s : Session) (text : String) : StepResult :=
  match parse_amount text with
  | none => ⟨s, db, [Reply.invalidAmount]⟩
  | some (PyVal.inf _) => ⟨s, db, [Reply.invalidAmount]⟩
  | some PyVal.nan => ⟨s, db, [Reply.invalidAmount]⟩
  | some (PyVal.finite amount) =>
    match s.draft_name with
    | none => ⟨Session.empty, db, [Reply.mainMenuPrompt]⟩
    | some name =>
      if name = "" then ⟨Session.empty, db, [Reply.mainMenuPrompt]⟩
      else
        match add_new_person db name amount with
        | (ok, db2) =>
          if ok then ⟨Session.empty, db2, [Reply.created name amount, Reply.mainMenuPrompt]⟩
          else ⟨Session.empty, db2, [Reply.nameExists, Reply.mainMenuPrompt]⟩

/-- The `on_text` branch for `pending == STATE_NEW_DEBT and selected_name`
(`bot_ar.py` lines 183-198).  After the update it re-reads the row,
defaulting to `(0.0, 0.0)` when the row is gone, and only resets the
`pending` flag.  Non-finite amounts are outside the exact-rational store
model and grouped with the invalid-amount reprompt, as in
`handleAddNameAmount`. -/
def handleNewDebt (db : Db) (s : Session) (text : String) : StepResult :=
  match parse_amount text with
  | none => ⟨s, db, [Reply.invalidAmount]⟩
  | some (PyVal.inf _) => ⟨s, db, [Reply.invalidAmount]⟩
  | some PyVal.nan => ⟨s, db, [Reply.invalidAmount]⟩
  | some (PyVal.finite amount) =>
    let nm := s.selected_name.getD ""
    let db2 := increase_debt db nm amount
    let tp := (get_person db2 nm).getD (0, 0)
    ⟨{ s with pending := none }, db2, [Reply.newDebtAdded nm amount (qsub tp.1 tp.2)]⟩

/-- The `on_text` branch for `pending == STATE_PAYMENT and selected_name`
(`bot_ar.py` lines 199-219).  On rejection the handler returns without
touching the session; on success it only resets the `pending` flag.
Non-finite amounts are outside the exact-rational store model and grouped
with the invalid-amount reprompt, as in `handleAddNameAmount`. -/
def handlePayment (db : Db) (s : Session) (text : String) : StepResult :=
  match parse_amount text with
  | none => ⟨s, db, [Reply.invalidAmount]⟩
  | some (PyVal.inf _) => ⟨s, db, [Reply.invalidAmount]⟩
  | some PyVal.nan => ⟨s, db, [Reply.invalidAmount]⟩
  | some (PyVal.finite amount) =>
    let nm := s.selected_name.getD ""
    match add_payment db nm amount with
    | (ok, remaining, db2) =>
      if ok then ⟨{ s with pending := none }, db2, [Reply.paymentDone remaining]⟩
      else ⟨s, db2, [Reply.paymentRejected remaining]⟩

/-- The menu-dispatch tail of `on_text` (`bot_ar.py` lines 220-305),
reached when no pending-state branch fired. -/
def menuDispatch (db : Db) (s : Session) (text : String) : StepResult :=
  if text = MAIN_MENU then
    let names := get_names db
    if names.isEmpty then ⟨s, db, [Reply.emptyList]⟩
    else ⟨s, db, [Reply.chooseName names]⟩
  else if text = ADD_NEW_NAME then
    ⟨⟨some PState.add_name, none, none⟩, db, [Reply.askNewName]⟩
  else if text = LIST_ALL then
    ⟨s, db, [show_all db]⟩
  else if (get_names db).contains text then
    ⟨{ s with selected_name := some text, pending := none }, db, [Reply.selectedName text]⟩
  else if text = NEW_DEBT then
    if isTruthy s.selected_name then
      ⟨{ s with pending := some PState.new_debt }, db,
        [Reply.askDebtAmount (s.selected_name.getD "")]⟩
    else ⟨s, db, [Reply.chooseFirst]⟩
  else if text = PAYMENT then
    if isTruthy s.selected_name then
      ⟨{ s with pending := some PState.payment }, db,
        [Reply.askPaymentAmount (s.selected_name.getD "")]⟩
    else ⟨s, db, [Reply.chooseFirst]⟩
  else if text = STATUS then
    if isTruthy s.selected_name then
      match get_person db (s.selected_name.getD "") with
      | none => ⟨s, db, [Reply.notFound]⟩
      | some (t, p) => ⟨s, db, [Reply.statusOf (s.selected_name.getD "") t p]⟩
    else ⟨s, db, [Reply.chooseFirst]⟩
  else if text = DELETE_PERSON_BTN then
    if isTruthy s.selected_name then
      match delete_person db (s.selected_name.getD "") with
      | (ok, db2) =>
        if ok then
          ⟨Session.empty, db2, [Reply.deleted (s.selected_name.getD ""), Reply.mainMenuPrompt]⟩
        else ⟨s, db2, [Reply.notFound]⟩
    else ⟨s, db, [Reply.chooseFirst]⟩
  else ⟨s, db, [Reply.notUnderstood]⟩

/-- The `on_text` handler (`bot_ar.py` lines 145-305) as a pure step
function: strip the text, handle the back button, then the four
pending-state branches, then the menu dispatch. -/
def on_text (db : Db) (s : Session) (input : String) : StepResult :=
  let text := pystrip input
  if text = BACK then ⟨Session.empty, db, [Reply.mainMenuPrompt]⟩
  else if s.pending = some PState.add_name then handleAddName db s text
  else if s.pending = some PState.add_name_amount then handleAddNameAmount db s text
  else if s.pending = some PState.new_debt ∧ isTruthy s.selected_name then
    handleNewDebt db s text
  else if s.pending = some PState.payment ∧ isTruthy s.selected_name then
    handlePayment db s text
  else menuDispatch db s text

/-- Row names are pairwise distinct (the `name TEXT PRIMARY KEY`
constraint, maintained by the operations themselves starting from an
empty table). -/
def NamesNodup (db : Db) : Prop := (db.map Person.name).Nodup

/-- The monetary invariant of the spec: every stored record satisfies
`0 <= paid <= total`. -/
def LedgerInv (db : Db) : Prop := ∀ p ∈ db, 0 ≤ p.paid ∧ p.paid ≤ p.total

/-- Tables reachable from the empty table by any sequence of the ledger
operations, each taken amount strictly positive (amounts reach the store
only through `parse_amount`, which enforces positivity). -/
inductive ReachableDb : Db → Prop where
  | empty : ReachableDb []
  | add (db : Db) (name : String) (amount : ℚ) :
      ReachableDb db → 0 < amount → ReachableDb (add_new_person db name amount).2
  | inc (db : Db) (name : String) (amount : ℚ) :
      ReachableDb db → 0 < amount → ReachableDb (increase_debt db name amount)
  | pay (db : Db) (name : String) (amount : ℚ) :
      ReachableDb db → 0 < amount → ReachableDb (add_payment db name amount).2.2
  | del (db : Db) (name : String) :
      ReachableDb db → ReachableDb (delete_person db name).2

/-- The controller invariant: whenever `pending` is the awaiting-new-debt
or awaiting-payment step, `selected_name` is a truthy (non-`None`,
non-empty) string. -/
def SessionOK (s : Session) : Prop :=
  (s.pending = some PState.new_debt ∨ s.pending = some PState.payment) →
    isTruthy s.selected_name = true

/-- Session/table pairs reachable through the conversation controller
starting from the cleared session (any initial table; the table also
evolves only through `on_text`). -/
inductive ReachableSession : Session → Db → Prop where
  | init (db : Db) : ReachableSession Session.empty db
  | step (s : Session) (db : Db) (input : String) :
      ReachableSession s db →
      ReachableSession (on_text db s input).session (on_text db s input).db

/-- Exact multiplication of a rational by a power of two, via `Rat.divInt`
(kernel-reducible). -/
def mulPow2 (q : ℚ) (i : ℤ) : ℚ :=
  if 0 ≤ i then Rat.divInt (q.num * 2 ^ i.toNat) (q.den : ℤ)
  else Rat.divInt q.num ((q.den : ℤ) * 2 ^ (-i).toNat)

/-- Round to the nearest integer, ties to even (the IEEE-754 default
rounding used by Python floats), expressed on the numerator so that it
reduces in the kernel. -/
def rne (q : ℚ) : ℤ :=
  if 2 * (q.num - q.floor * (q.den : ℤ)) < (q.den : ℤ) then q.floor
  else if (q.den : ℤ) < 2 * (q.num - q.floor * (q.den : ℤ)) then q.floor + 1
  else if q.floor % 2 = 0 then q.floor else q.floor + 1

/-- Fuelled binary logarithm for `q >= 1`: the largest `e` with
`2 ^ e <= q` (fuel 1200 covers the finite binary64 range). -/
def ilog2up : ℕ → ℚ → ℤ
  | 0, _ => 0
  | n + 1, q => if q < 2 then 0 else ilog2up n (mulPow2 q (-1)) + 1

/-- Fuelled binary logarithm for `0 < q < 1`. -/
def ilog2down : ℕ → ℚ → ℤ
  | 0, _ => 0
  | n + 1, q => if 1 ≤ q then 0 else ilog2down n (mulPow2 q 1) - 1

/-- Binary logarithm of a positive rational. -/
def ilog2 (q : ℚ) : ℤ :=
  if 1 ≤ q then ilog2up 1200 q else ilog2down 1200 q

/-- Round a positive rational to the nearest IEEE-754 binary64 value
(normal range, round-to-nearest ties-to-even): scale into the 53-bit
significand window for the exponent `ilog2 q`, round, and scale back. -/
def roundB64Pos (q : ℚ) : ℚ :=
  mulPow2 ((rne (mulPow2 q (52 - ilog2 q)) : ℤ) : ℚ) (ilog2 q - 52)

/-- The IEEE-754 binary64 value nearest to `q` (normal finite range —
the range of the monetary values in this program).  This is the rounding
the Python runtime applies to every `float` the program computes and that
SQLite applies to every `REAL` it stores: `bot_ar.py` declares
`total REAL`/`paid REAL` (lines 30-41) and converts user input with
`float(...)` (line 105), so the values the program actually persists are
`roundB64` images, not exact decimals. -/
def roundB64 (q : ℚ) : ℚ :=
  if q = 0 then 0 else if 0 < q then roundB64Pos q else -(roundB64Pos (-q))

/-- The value the program actually stores for a parsed finite amount:
the exact value of the text, rounded to binary64 by Python's `float`. -/
def parse_amount_stored (s : String) : Option ℚ :=
  match parse_amount s with
  | some (PyVal.finite q) => some (roundB64 q)
  | _ => none

/-- Addition as the program actually performs it on stored values:
exact rational addition followed by binary64 rounding (Python float
addition / SQLite `total + ?`). -/
def storedAdd (a b : ℚ) : ℚ :=
  roundB64 (qadd a b)

/-! ### Evaluation checks and theorems -/

theorem qadd_eq (a b : ℚ) : qadd a b = a + b := by
  have hb0 : ((a.den : ℤ)) ≠ 0 := Int.natCast_ne_zero.mpr a.den_nz
  have hd0 : ((b.den : ℤ)) ≠ 0 := Int.natCast_ne_zero.mpr b.den_nz
  rw [qadd]
  conv_rhs => rw [← Rat.num_divInt_den a, ← Rat.num_divInt_den b]
  rw [Rat.divInt_add_divInt _ _ hb0 hd0]

theorem qsub_eq (a b : ℚ) : qsub a b = a - b := by
  rw [qsub, qadd_eq, sub_eq_add_neg]

example : parse_amount "50" = some (PyVal.finite 50) := by decide

example : parse_amount " 23.5 " = some (PyVal.finite (Rat.divInt 47 2)) := by decide

example : parse_amount "٢٣" = some (PyVal.finite 23) := by decide

example : parse_amount "۸" = some (PyVal.finite 8) := by decide

example : parse_amount "0" = none := by decide

example : parse_amount "-5" = none := by decide

example : parse_amount "abc" = none := by decide

example : parse_amount "1." = some (PyVal.finite 1) := by decide

example : parse_amount ".5" = some (PyVal.finite (Rat.divInt 1 2)) := by decide

example : parse_amount "1..2" = none := by decide

example : parse_amount "1e3" = some (PyVal.finite 1000) := by decide

example : parse_amount "2.5e-2" = some (PyVal.finite (Rat.divInt 1 40)) := by decide

example : parse_amount "1_000.5" = some (PyVal.finite (Rat.divInt 2001 2)) := by decide

example : parse_amount "1_" = none := by decide

example : parse_amount "1__0" = none := by decide

example : parse_amount "1_.5" = none := by decide

example : parse_amount "1e" = none := by decide

example : parse_amount "nan" = some PyVal.nan := by decide

example : parse_amount "-nan" = some PyVal.nan := by decide

example : parse_amount "inf" = some (PyVal.inf false) := by decide

example : parse_amount "Infinity" = some (PyVal.inf false) := by decide

example : parse_amount "-inf" = none := by decide

example : parse_amount "NAN" = some PyVal.nan := by decide

example : add_payment [⟨"Ali", 150, 60⟩] "Ali" 200 = (false, 90, [⟨"Ali", 150, 60⟩]) := by decide

example : add_payment [⟨"Ali", 150, 60⟩] "Ali" 60 = (true, 30, [⟨"Ali", 150, 120⟩]) := by decide

example :
    on_text [] ⟨some PState.new_debt, some "Ali", none⟩ "50" =
      ⟨⟨none, some "Ali", none⟩, [], [Reply.newDebtAdded "Ali" 50 0]⟩ := by decide

example :
    on_text [⟨"Ali", 150, 60⟩] ⟨some PState.payment, some "Ali", none⟩ "200" =
      ⟨⟨some PState.payment, some "Ali", none⟩, [⟨"Ali", 150, 60⟩],
        [Reply.paymentRejected 90]⟩ := by decide

example :
    on_text [⟨"Ali", 100, 0⟩] Session.empty "Ali" =
      ⟨⟨none, some "Ali", none⟩, [⟨"Ali", 100, 0⟩], [Reply.selectedName "Ali"]⟩ := by decide

example :
    on_text [⟨"Ali", 100, 0⟩] ⟨none, some "Ali", none⟩ "سداد" =
      ⟨⟨some PState.payment, some "Ali", none⟩, [⟨"Ali", 100, 0⟩],
        [Reply.askPaymentAmount "Ali"]⟩ := by decide

example :
    on_text [⟨"Ali", 100, 0⟩] ⟨some PState.payment, some "Ali", none⟩ "رجوع" =
      ⟨Session.empty, [⟨"Ali", 100, 0⟩], [Reply.mainMenuPrompt]⟩ := by decide

theorem find?_name_map (db : Db) (m : String) (f : Person → Person)
    (hf : ∀ p, (f p).name = p.name) :
    (db.map f).find? (fun p => p.name == m) =
      (db.find? (fun p => p.name == m)).map f := by
  rw [List.find?_map]
  have hc : ((fun p => p.name == m) ∘ f) = (fun p : Person => p.name == m) := by
    funext p
    simp [Function.comp, hf]
  rw [hc]

theorem get_person_eq_some {db : Db} {name : String} {total paid : ℚ} :
    get_person db name = some (total, paid) ↔
      ∃ r, db.find? (fun p => p.name == name) = some r ∧
        r.total = total ∧ r.paid = paid := by
  unfold get_person
  cases h : db.find? (fun p => p.name == name) <;> simp [h]

theorem get_person_eq_none {db : Db} {name : String} :
    get_person db name = none ↔ db.find? (fun p => p.name == name) = none := by
  unfold get_person
  cases h : db.find? (fun p => p.name == name) <;> simp

/-- C2: for an existing record and a positive amount, `add_payment` rejects
an overpayment (`paid + amount > total`) reporting the remaining-before-
payment `total - paid` and leaving the table untouched; otherwise it
commits `paid := paid + amount` and returns `total - (paid + amount)`. -/
theorem add_payment_spec (db : Db) (name : String) (amount total paid : ℚ)
    (hget : get_person db name = some (total, paid)) (hpos : 0 < amount) :
    (total < paid + amount →
      add_payment db name amount = (false, total - paid, db)) ∧
    (¬ total < paid + amount →
      (add_payment db name amount).1 = true ∧
      (add_payment db name amount).2.1 = total - (paid + amount) ∧
      get_person (add_payment db name amount).2.2 name = some (total, paid + amount)) := by
  have hq : qadd paid amount = paid + amount := qadd_eq _ _
  constructor
  · intro hlt
    simp only [add_payment, hget, hq, qsub_eq]
    rw [if_pos hlt]
  · intro hge
    rcases get_person_eq_some.mp hget with ⟨r, hfind, hrt, hrp⟩
    have hrn : r.name = name := by
      have := List.find?_some hfind
      simpa using this
    simp only [add_payment, hget, hq, qsub_eq]
    rw [if_neg hge]
    refine ⟨rfl, rfl, ?_⟩
    apply get_person_eq_some.mpr
    refine ⟨{ r with paid := paid + amount }, ?_, by simpa using hrt, rfl⟩
    rw [find?_name_map]
    · rw [hfind]
      simp [hrn]
    · intro p
      by_cases hp : p.name = name <;> simp [hp]

/-- Witness for C2 at scenario 4 of the spec: on `("Ali", 150, 60)` a
payment of `200` is rejected with remaining `90` and an unchanged table. -/
theorem add_payment_spec_witness :
    add_payment [⟨"Ali", 150, 60⟩] "Ali" 200 = (false, 90, [⟨"Ali", 150, 60⟩]) := by
  have h := (add_payment_spec [⟨"Ali", 150, 60⟩] "Ali" 200 150 60
    (by decide) (by norm_num)).1 (by norm_num)
  norm_num at h
  exact h

/-- C8: `add_new_person` fails on an existing name leaving the whole table
(and hence the existing record) unchanged, and on an absent name inserts
`(name, amount, 0)`. -/
theorem add_new_person_spec (db : Db) (name : String) (amount : ℚ) :
    ((get_person db name).isSome = true → add_new_person db name amount = (false, db)) ∧
    (get_person db name = none →
      add_new_person db name amount = (true, db ++ [⟨name, amount, 0⟩]) ∧
      get_person (db ++ [⟨name, amount, 0⟩]) name = some (amount, 0)) := by
  constructor
  · intro h
    simp [add_new_person, h]
  · intro h
    have hs : (get_person db name).isSome = false := by simp [h]
    refine ⟨by simp [add_new_person, hs], ?_⟩
    apply get_person_eq_some.mpr
    refine ⟨⟨name, amount, 0⟩, ?_, rfl, rfl⟩
    rw [List.find?_append, get_person_eq_none.mp h]
    simp

/-- Witness for C8 at scenario 1 of the spec: creating `"Ali"` with `100`
in an empty table inserts `("Ali", 100, 0)`. -/
theorem add_new_person_spec_witness :
    add_new_person [] "Ali" 100 = (true, [⟨"Ali", 100, 0⟩]) ∧
    get_person [⟨"Ali", 100, 0⟩] "Ali" = some (100, 0) := by
  have h := (add_new_person_spec [] "Ali" 100).2 (by decide)
  simpa using h

/-- C10 (implicit): for a name absent from the table, `add_payment`
returns `(False, 0.0)` and leaves the table unchanged; the same
`(ok, reported)` pair arises from an overpayment rejection on a record
whose remaining is `0`. -/
theorem add_payment_missing (db : Db) (name nm2 : String) (amount t : ℚ)
    (h : get_person db name = none) (hpos : 0 < amount) :
    add_payment db name amount = (false, 0, db) ∧
    (add_payment [⟨nm2, t, t⟩] nm2 amount).1 = false ∧
    (add_payment [⟨nm2, t, t⟩] nm2 amount).2.1 = 0 := by
  have hg : get_person [⟨nm2, t, t⟩] nm2 = some (t, t) := by
    simp [get_person]
  have hx : add_payment [⟨nm2, t, t⟩] nm2 amount = (false, t - t, [⟨nm2, t, t⟩]) := by
    simp only [add_payment, hg, qadd_eq, qsub_eq]
    rw [if_pos (by linarith)]
  refine ⟨by simp [add_payment, h], by rw [hx], by rw [hx]; simp⟩

/-- Witness for C10: paying `50` for the absent name `"Bob"` yields
`(False, 0)` and the unchanged table, matching the rejection on
`("Zed", 100, 100)`. -/
theorem add_payment_missing_witness :
    add_payment [⟨"Ali", 150, 60⟩] "Bob" 50 = (false, 0, [⟨"Ali", 150, 60⟩]) ∧
    (add_payment [⟨"Zed", 100, 100⟩] "Zed" 50).1 = false ∧
    (add_payment [⟨"Zed", 100, 100⟩] "Zed" 50).2.1 = 0 :=
  add_payment_missing [⟨"Ali", 150, 60⟩] "Bob" "Zed" 50 100 (by decide) (by norm_num)

/-- C5 (counterexample): with no record named `"Ali"`, `increase_debt`
silently leaves the table unchanged and produces no error signal of any
kind; the controller in the awaiting-new-debt state even sends the
success directive `newDebtAdded` (reporting remaining `0`, keyboard
`personActions`), not a not-found report — so the claim that
`increase_debt` "fails with a NotFound signal when no record with that
name exists" is false on this input. -/
theorem increase_debt_no_notfound_cex :
    increase_debt [] "Ali" 50 = [] ∧
    on_text [] ⟨some PState.new_debt, some "Ali", none⟩ "50" =
      ⟨⟨none, some "Ali", none⟩, [], [Reply.newDebtAdded "Ali" 50 0]⟩ ∧
    Reply.newDebtAdded "Ali" 50 0 ≠ Reply.notFound := by decide

/-- C5 (amended): `increase_debt` adds `amount` to `total` of an existing
record; when the name is absent it silently returns the table unchanged
(its Python return type is `None` — there is no NotFound signal). -/
theorem increase_debt_spec (db : Db) (name : String) (amount total paid : ℚ) :
    (get_person db name = some (total, paid) →
      get_person (increase_debt db name amount) name = some (total + amount, paid)) ∧
    (get_person db name = none → increase_debt db name amount = db) := by
  constructor
  · intro hget
    rcases get_person_eq_some.mp hget with ⟨r, hfind, hrt, hrp⟩
    have hrn : r.name = name := by
      have := List.find?_some hfind
      simpa using this
    apply get_person_eq_some.mpr
    refine ⟨{ r with total := total + amount }, ?_, rfl, by simpa using hrp⟩
    unfold increase_debt
    rw [find?_name_map]
    · rw [hfind]
      simp [hrn, qadd_eq, hrt]
    · intro p
      by_cases hp : p.name = name <;> simp [hp]
  · intro hnone
    have hall := List.find?_eq_none.mp (get_person_eq_none.mp hnone)
    unfold increase_debt
    conv_rhs => rw [← List.map_id db]
    apply List.map_congr_left
    intro p hp
    have : p.name ≠ name := by simpa using hall p hp
    simp [this]

/-- Witness for C5 (amended) at scenario 2 of the spec: increasing
`("Ali", 100, 0)` by `50` yields `(150, 0)`, and increasing the absent
name `"Bob"` leaves the table unchanged. -/
theorem increase_debt_spec_witness :
    get_person (increase_debt [⟨"Ali", 100, 0⟩] "Ali" 50) "Ali" = some (150, 0) ∧
    increase_debt [⟨"Ali", 100, 0⟩] "Bob" 50 = [⟨"Ali", 100, 0⟩] := by
  constructor
  · have h := (increase_debt_spec [⟨"Ali", 100, 0⟩] "Ali" 50 100 0).1 (by decide)
    norm_num at h
    exact h
  · exact (increase_debt_spec [⟨"Ali", 100, 0⟩] "Bob" 50 0 0).2 (by decide)

/-- C7: in every session state and on every input that strips to the BACK
literal, the controller clears the whole session, returns the top-level
main menu, and performs no ledger operation (the table is returned
unchanged). -/
theorem on_text_back (db : Db) (s : Session) (input : String)
    (h : pystrip input = BACK) :
    on_text db s input = ⟨Session.empty, db, [Reply.mainMenuPrompt]⟩ ∧
    (Reply.mainMenuPrompt).markup = some Menu.main := by
  refine ⟨?_, rfl⟩
  unfold on_text
  rw [h]
  simp

/-- Witness for C7 at scenario 6 of the spec: in the awaiting-payment
state with `"Ali"` selected, sending `" رجوع "` resets the session and
shows the main menu. -/
theorem on_text_back_witness :
    on_text [⟨"Ali", 150, 60⟩] ⟨some PState.payment, some "Ali", none⟩ " رجوع " =
      ⟨Session.empty, [⟨"Ali", 150, 60⟩], [Reply.mainMenuPrompt]⟩ ∧
    (Reply.mainMenuPrompt).markup = some Menu.main :=
  on_text_back [⟨"Ali", 150, 60⟩] ⟨some PState.payment, some "Ali", none⟩ " رجوع " (by decide)

theorem find?_unique (db : Db) (name : String) (r q : Person)
    (hn : NamesNodup db) (hfind : db.find? (fun p => p.name == name) = some r)
    (hq : q ∈ db) (hqn : q.name = name) : q = r := by
  induction db with
  | nil => simp at hq
  | cons a as ih =>
    have hn2 : a.name ∉ as.map Person.name ∧ NamesNodup as := by
      simpa [NamesNodup] using hn
    rcases List.mem_cons.mp hq with rfl | hq2
    · rw [List.find?_cons_of_pos _ (by simp [hqn])] at hfind
      exact (Option.some_inj.mp hfind).symm ▸ rfl
    · cases ha : (a.name == name) with
      | false =>
        rw [List.find?_cons_of_neg _ (by simp [ha])] at hfind
        exact ih hn2.2 hfind hq2
      | true =>
        exfalso
        apply hn2.1
        have : a.name = q.name := by
          have h1 : a.name = name := by simpa using ha
          rw [h1, hqn]
        rw [this]
        exact List.mem_map_of_mem Person.name hq2

theorem names_map_update (db : Db) (f : Person → Person)
    (hf : ∀ p, (f p).name = p.name) :
    (db.map f).map Person.name = db.map Person.name := by
  rw [List.map_map]
  apply List.map_congr_left
  intro p _
  simp [Function.comp, hf]

theorem reachable_nodup_inv (db : Db) (h : ReachableDb db) :
    NamesNodup db ∧ LedgerInv db := by
  induction h with
  | empty => exact ⟨by simp [NamesNodup], by simp [LedgerInv]⟩
  | add db name amount _ hpos ih =>
    unfold add_new_person
    cases hcase : (get_person db name).isSome with
    | true => simpa [hcase] using ih
    | false =>
      have hnone : get_person db name = none := Option.not_isSome_iff_eq_none.mp (by simp [hcase])
      have hall := List.find?_eq_none.mp (get_person_eq_none.mp hnone)
      simp only [hcase, Bool.false_eq_true, if_false]
      constructor
      · have hnin : name ∉ db.map Person.name := by
          intro hmem
          rcases List.mem_map.mp hmem with ⟨p, hp, hpn⟩
          have hne : ¬p.name = name := by simpa using hall p hp
          exact hne hpn
        unfold NamesNodup
        rw [List.map_append]
        refine List.Nodup.append ih.1 (by simp) ?_
        intro x hx hx2
        have hxe : x = name := by simpa using hx2
        rw [hxe] at hx
        exact hnin hx
      · intro p hp
        rcases List.mem_append.mp hp with hp1 | hp2
        · exact ih.2 p hp1
        · have : p = ⟨name, amount, 0⟩ := by simpa using hp2
          rw [this]
          exact ⟨le_refl 0, le_of_lt hpos⟩
  | inc db name amount _ hpos ih =>
    constructor
    · unfold NamesNodup increase_debt
      rw [names_map_update]
      · exact ih.1
      · intro p
        by_cases hp : p.name = name <;> simp [hp]
    · intro p hp
      rcases List.mem_map.mp hp with ⟨q, hq, hfq⟩
      rcases ih.2 q hq with ⟨h1, h2⟩
      by_cases hqn : q.name = name
      · rw [← hfq]
        simp only [hqn, if_true, qadd_eq]
        constructor
        · exact h1
        · linarith
      · rw [← hfq]
        simp only [hqn, if_false]
        exact ⟨h1, h2⟩
  | pay db name amount _ hpos ih =>
    unfold add_payment
    cases hget : get_person db name with
    | none => simpa using ih
    | some tp =>
      rcases tp with ⟨total, paid⟩
      rcases get_person_eq_some.mp hget with ⟨r, hfind, hrt, hrp⟩
      by_cases hlt : total < qadd paid amount
      · simpa [hlt] using ih
      · simp only [hlt, if_false]
        constructor
        · unfold NamesNodup
          rw [names_map_update]
          · exact ih.1
          · intro p
            by_cases hp : p.name = name <;> simp [hp]
        · intro p hp
          rcases List.mem_map.mp hp with ⟨q, hq, hfq⟩
          rcases ih.2 q hq with ⟨h1, h2⟩
          by_cases hqn : q.name = name
          · have hqr : q = r := find?_unique db name r q ih.1 hfind hq hqn
            rw [← hfq]
            simp only [hqn, if_true]
            rw [qadd_eq] at hlt ⊢
            constructor
            · have : 0 ≤ paid := by
                have := ih.2 r (List.mem_of_find?_eq_some hfind)
                rw [hrp] at this
                exact this.1
              linarith
            · have hqt : q.total = total := by rw [hqr, hrt]
              rw [hqt] at h2 ⊢
              linarith [not_lt.mp hlt]
          · rw [← hfq]
            simp only [hqn, if_false]
            exact ⟨h1, h2⟩
  | del db name _ ih =>
    unfold delete_person
    constructor
    · unfold NamesNodup
      have hsub : ((db.filter (fun p => !(p.name == name))).map Person.name).Sublist
          (db.map Person.name) := (List.filter_sublist db).map Person.name
      exact List.Nodup.sublist hsub ih.1
    · intro p hp
      exact ih.2 p (List.mem_of_mem_filter hp)

/-- C1: in every table reachable from the empty table by any sequence of
`add_new_person`, `increase_debt`, `add_payment` (each with a strictly
positive amount) and `delete_person`, every stored record satisfies
`0 <= paid <= total`. -/
theorem ledger_invariant (db : Db) (p : Person)
    (hr : ReachableDb db) (hp : p ∈ db) :
    0 ≤ p.paid ∧ p.paid ≤ p.total :=
  (reachable_nodup_inv db hr).2 p hp

/-- Witness for C1: the table obtained by creating `"Ali"` with `100` is
reachable and its record satisfies the invariant. -/
theorem ledger_invariant_witness :
    0 ≤ (Person.mk "Ali" 100 0).paid ∧
      (Person.mk "Ali" 100 0).paid ≤ (Person.mk "Ali" 100 0).total := by
  have h := ReachableDb.add [] "Ali" 100 ReachableDb.empty (by norm_num)
  have he : (add_new_person [] "Ali" 100).2 = [⟨"Ali", 100, 0⟩] := by decide
  rw [he] at h
  exact ledger_invariant [⟨"Ali", 100, 0⟩] ⟨"Ali", 100, 0⟩ h (by decide)

theorem isTruthy_iff (o : Option String) :
    isTruthy o = true ↔ ∃ nm, o = some nm ∧ nm ≠ "" := by
  cases o <;> simp [isTruthy]

theorem sessionOK_empty : SessionOK Session.empty := by
  intro hp
  rcases hp with hp | hp <;> simp [Session.empty] at hp

theorem handleAddName_ok (db : Db) (s : Session) (text : String)
    (h : SessionOK s) : SessionOK (handleAddName db s text).session := by
  unfold handleAddName
  split
  · exact h
  · intro hp
    rcases hp with hp | hp <;> simp at hp

theorem handleAddNameAmount_ok (db : Db) (s : Session) (text : String)
    (h : SessionOK s) : SessionOK (handleAddNameAmount db s text).session := by
  unfold handleAddNameAmount
  repeat' split
  all_goals first
    | exact h
    | exact sessionOK_empty

theorem handleNewDebt_ok (db : Db) (s : Session) (text : String)
    (h : SessionOK s) : SessionOK (handleNewDebt db s text).session := by
  unfold handleNewDebt
  repeat' split
  all_goals first
    | exact h
    | exact sessionOK_empty
    | (intro hp; rcases hp with hp | hp <;> simp_all)

theorem handlePayment_ok (db : Db) (s : Session) (text : String)
    (h : SessionOK s) : SessionOK (handlePayment db s text).session := by
  simp only [handlePayment]
  repeat' split
  all_goals first
    | exact h
    | exact sessionOK_empty
    | (intro hp; rcases hp with hp | hp <;> simp_all)
    | (intro hp; simp_all)

theorem menuDispatch_ok (db : Db) (s : Session) (text : String)
    (h : SessionOK s) : SessionOK (menuDispatch db s text).session := by
  simp only [menuDispatch]
  repeat' split
  all_goals first
    | exact h
    | exact sessionOK_empty
    | (intro hp; rcases hp with hp | hp <;> simp_all)
    | (intro hp; simp_all)

theorem on_text_sessionOK (db : Db) (s : Session) (input : String)
    (h : SessionOK s) : SessionOK (on_text db s input).session := by
  simp only [on_text]
  split_ifs with h1 h2 h3 h4 h5
  · exact sessionOK_empty
  · exact handleAddName_ok db s (pystrip input) h
  · exact handleAddNameAmount_ok db s (pystrip input) h
  · exact handleNewDebt_ok db s (pystrip input) h
  · exact handlePayment_ok db s (pystrip input) h
  · exact menuDispatch_ok db s (pystrip input) h

theorem reachable_sessionOK (s : Session) (db : Db)
    (hr : ReachableSession s db) : SessionOK s := by
  induction hr with
  | init db => exact sessionOK_empty
  | step s db input hr ih => exact on_text_sessionOK db s input ih

/-- C9: in every session state reachable through `on_text` from the empty
session, whenever `pending` is the awaiting-new-debt or awaiting-payment
step a selected name is present (a non-`None`, non-empty string). -/
theorem session_pending_has_selection (s : Session) (db : Db)
    (hr : ReachableSession s db)
    (hp : s.pending = some PState.new_debt ∨ s.pending = some PState.payment) :
    ∃ nm, s.selected_name = some nm ∧ nm ≠ "" :=
  (isTruthy_iff _).mp (reachable_sessionOK s db hr hp)

/-- Witness for C9: the state reached by selecting `"Ali"` and pressing
the payment button is awaiting a payment amount and has `"Ali"`
selected. -/
theorem session_pending_witness :
    ∃ nm, (Session.mk (some PState.payment) (some "Ali") none).selected_name =
      some nm ∧ nm ≠ "" := by
  have h0 : ReachableSession Session.empty [⟨"Ali", 100, 0⟩] := ReachableSession.init _
  have h1 := ReachableSession.step Session.empty [⟨"Ali", 100, 0⟩] "Ali" h0
  have e1 : on_text [⟨"Ali", 100, 0⟩] Session.empty "Ali" =
      ⟨⟨none, some "Ali", none⟩, [⟨"Ali", 100, 0⟩], [Reply.selectedName "Ali"]⟩ := by decide
  rw [e1] at h1
  have h2 := ReachableSession.step ⟨none, some "Ali", none⟩ [⟨"Ali", 100, 0⟩] "سداد" h1
  have e2 : on_text [⟨"Ali", 100, 0⟩] ⟨none, some "Ali", none⟩ "سداد" =
      ⟨⟨some PState.payment, some "Ali", none⟩, [⟨"Ali", 100, 0⟩],
        [Reply.askPaymentAmount "Ali"]⟩ := by decide
  rw [e2] at h2
  exact session_pending_has_selection _ _ h2 (Or.inr rfl)

/-- C3 (counterexample): terminal conversation actions do not reset the
session to empty.  A failed (overpayment) payment on `("Ali", 150, 60)`
leaves the session entirely unchanged — still awaiting a payment amount
with `"Ali"` selected — and even a successful payment only resets
`pending`, retaining the selected name; neither resulting session is the
empty context. -/
theorem terminal_actions_not_cleared_cex :
    (on_text [⟨"Ali", 150, 60⟩] ⟨some PState.payment, some "Ali", none⟩ "200").session =
      ⟨some PState.payment, some "Ali", none⟩ ∧
    (on_text [⟨"Ali", 150, 60⟩] ⟨some PState.payment, some "Ali", none⟩ "40").session =
      ⟨none, some "Ali", none⟩ ∧
    (⟨some PState.payment, some "Ali", none⟩ : Session) ≠ Session.empty ∧
    (⟨none, some "Ali", none⟩ : Session) ≠ Session.empty := by decide

/-- C3 (amended): after a terminal creation action (success, conflict, or
lost draft) the session is fully cleared; after a successful debt
increase or a successful payment only `pending` is reset to `None` and
the selected name (and draft) are retained; after a failed payment the
session is left entirely unchanged, still awaiting a payment amount. -/
theorem terminal_actions_session (db : Db) (s : Session) (input : String)
    (amount : ℚ) (hamt : parse_amount (pystrip input) = some (PyVal.finite amount))
    (hback : ¬ pystrip input = BACK) :
    (s.pending = some PState.add_name_amount →
      (on_text db s input).session = Session.empty) ∧
    (s.pending = some PState.new_debt → isTruthy s.selected_name = true →
      (on_text db s input).session = { s with pending := none }) ∧
    (s.pending = some PState.payment → isTruthy s.selected_name = true →
      ((add_payment db (s.selected_name.getD "") amount).1 = true →
        (on_text db s input).session = { s with pending := none }) ∧
      ((add_payment db (s.selected_name.getD "") amount).1 = false →
        (on_text db s input).session = s)) := by
  refine ⟨?_, ?_, ?_⟩
  · intro hpend
    simp only [on_text]
    rw [if_neg hback, if_neg (by simp [hpend]), if_pos hpend]
    simp only [handleAddNameAmount, hamt]
    repeat' split
    all_goals rfl
  · intro hpend htru
    simp only [on_text]
    rw [if_neg hback, if_neg (by simp [hpend]), if_neg (by simp [hpend]),
      if_pos ⟨hpend, htru⟩]
    simp only [handleNewDebt, hamt]
  · intro hpend htru
    simp only [on_text]
    rw [if_neg hback, if_neg (by simp [hpend]), if_neg (by simp [hpend]),
      if_neg (by simp [hpend]), if_pos ⟨hpend, htru⟩]
    simp only [handlePayment, hamt]
    constructor
    · intro hok
      split
      · rfl
      · simp_all
    · intro hok
      split
      · simp_all
      · rfl

/-- Witness for C3 (amended): a concrete successful creation clears the
session; a concrete successful payment only resets `pending`, keeping
`"Ali"` selected. -/
theorem terminal_actions_session_witness :
    (on_text [] ⟨some PState.add_name_amount, none, some "Omar"⟩ "100").session =
      Session.empty ∧
    (on_text [⟨"Ali", 150, 60⟩] ⟨some PState.payment, some "Ali", none⟩ "40").session =
      ⟨none, some "Ali", none⟩ := by
  constructor
  · exact (terminal_actions_session [] ⟨some PState.add_name_amount, none, some "Omar"⟩
      "100" 100 (by decide) (by decide)).1 rfl
  · exact ((terminal_actions_session [⟨"Ali", 150, 60⟩]
      ⟨some PState.payment, some "Ali", none⟩ "40" 40 (by decide) (by decide)).2.2
      rfl (by decide)).1 (by decide)

theorem digitVal?_normalize (c : Char) :
    digitVal? (normalize_digits_char c) = digitVal? c := by
  unfold normalize_digits_char
  split_ifs with h1 h2 h3 h4 h5 h6 h7 h8 h9 h10
  · rcases h1 with h | h <;> simp only [digitVal?] <;> rw [h] <;> decide
  · rcases h2 with h | h <;> simp only [digitVal?] <;> rw [h] <;> decide
  · rcases h3 with h | h <;> simp only [digitVal?] <;> rw [h] <;> decide
  · rcases h4 with h | h <;> simp only [digitVal?] <;> rw [h] <;> decide
  · rcases h5 with h | h <;> simp only [digitVal?] <;> rw [h] <;> decide
  · rcases h6 with h | h <;> simp only [digitVal?] <;> rw [h] <;> decide
  · rcases h7 with h | h <;> simp only [digitVal?] <;> rw [h] <;> decide
  · rcases h8 with h | h <;> simp only [digitVal?] <;> rw [h] <;> decide
  · rcases h9 with h | h <;> simp only [digitVal?] <;> rw [h] <;> decide
  · simp only [digitVal?]
    rw [h10]
    decide
  · rfl

theorem normalize_digits_char_eq_self (d : Char) (hd : digitVal? d = none) :
    normalize_digits_char d = d := by
  unfold normalize_digits_char
  simp only [digitVal?] at hd
  split_ifs with h1 h2 h3 h4 h5 h6 h7 h8 h9 h10
  · rcases h1 with h | h <;> rw [h] at hd <;> exact absurd hd (by decide)
  · rcases h2 with h | h <;> rw [h] at hd <;> exact absurd hd (by decide)
  · rcases h3 with h | h <;> rw [h] at hd <;> exact absurd hd (by decide)
  · rcases h4 with h | h <;> rw [h] at hd <;> exact absurd hd (by decide)
  · rcases h5 with h | h <;> rw [h] at hd <;> exact absurd hd (by decide)
  · rcases h6 with h | h <;> rw [h] at hd <;> exact absurd hd (by decide)
  · rcases h7 with h | h <;> rw [h] at hd <;> exact absurd hd (by decide)
  · rcases h8 with h | h <;> rw [h] at hd <;> exact absurd hd (by decide)
  · rcases h9 with h | h <;> rw [h] at hd <;> exact absurd hd (by decide)
  · rw [h10] at hd
    exact absurd hd (by decide)
  · rfl

theorem normalize_digits_char_eq_iff (c d : Char) (hd : digitVal? d = none) :
    normalize_digits_char c = d ↔ c = d := by
  constructor
  · intro he
    have hc : digitVal? c = none := by
      rw [← digitVal?_normalize c, he, hd]
    rw [← normalize_digits_char_eq_self c hc]
    exact he
  · intro he
    rw [he]
    exact normalize_digits_char_eq_self d hd

theorem digitsVal?_map (cs : List Char) :
    digitsVal? (cs.map normalize_digits_char) = digitsVal? cs := by
  induction cs with
  | nil => rfl
  | cons c cs ih =>
    simp only [List.map_cons, digitsVal?, digitVal?_normalize, ih, List.length_map]

theorem normalize_pred_dot :
    ((fun c => !(c == '.')) ∘ normalize_digits_char) = (fun c : Char => !(c == '.')) := by
  funext c
  simp only [Function.comp]
  by_cases hc : c = '.'
  · simp [hc, normalize_digits_char_eq_self '.' (by decide)]
  · have h2 : ¬ normalize_digits_char c = '.' :=
      fun he => hc ((normalize_digits_char_eq_iff c '.' (by decide)).mp he)
    simp [hc, h2]

theorem pyfloatUnsigned_map (cs : List Char) :
    pyfloatUnsigned (cs.map normalize_digits_char) = pyfloatUnsigned cs := by
  unfold pyfloatUnsigned
  rw [List.takeWhile_map, List.dropWhile_map, normalize_pred_dot]
  cases hdrop : cs.dropWhile (fun c => !(c == '.')) with
  | nil => simp [digitsVal?_map]
  | cons x fp => simp [digitsVal?_map]

theorem pyfloatUnsigned_cons_not_digit (c : Char) (rest : List Char) (v : ℚ)
    (hc : digitVal? c = none) (hcd : ¬ c = '.')
    (h : pyfloatUnsigned (c :: rest) = some v) : False := by
  unfold pyfloatUnsigned at h
  rw [List.dropWhile_cons_of_pos (by simp [hcd]),
    List.takeWhile_cons_of_pos (by simp [hcd])] at h
  split at h
  · rw [if_neg (by simp)] at h
    simp [digitsVal?, hc] at h
  · rw [if_neg (by simp)] at h
    simp [digitsVal?, hc] at h

theorem pyfloatSigned_not_sign (c : Char) (rest : List Char)
    (h1 : ¬ c = '+') (h2 : ¬ c = '-') :
    pyfloatSigned (c :: rest) = pyfloatNoSign (c :: rest) false := by
  simp only [pyfloatSigned]
  rw [if_neg h1, if_neg h2]

theorem digitsVal?_isSome_mem (cs : List Char) (n : ℕ) (h : digitsVal? cs = some n) :
    ∀ c ∈ cs, (digitVal? c).isSome = true := by
  induction cs generalizing n with
  | nil => simp
  | cons c rest ih =>
    intro d hd
    unfold digitsVal? at h
    cases hc : digitVal? c with
    | none =>
      rw [hc] at h
      simp at h
    | some dv =>
      cases hrest : digitsVal? rest with
      | none =>
        rw [hc, hrest] at h
        simp at h
      | some r =>
        rcases List.mem_cons.mp hd with rfl | hd2
        · simp [hc]
        · exact ih r hrest d hd2

theorem dropWhile_cons_pred (p : Char → Bool) (cs : List Char) (x : Char) (fp : List Char)
    (h : cs.dropWhile p = x :: fp) : p x = false := by
  induction cs with
  | nil => simp at h
  | cons c rest ih =>
    rw [List.dropWhile_cons] at h
    by_cases hc : p c = true
    · rw [if_pos hc] at h
      exact ih h
    · rw [if_neg hc] at h
      injection h with hh1 hh2
      rw [← hh1]
      simpa using hc

theorem pyfloatUnsigned_chars (cs : List Char) (v : ℚ) (h : pyfloatUnsigned cs = some v) :
    ∀ c ∈ cs, (digitVal? c).isSome = true ∨ c = '.' := by
  have hsplit : cs.takeWhile (fun c => !(c == '.')) ++ cs.dropWhile (fun c => !(c == '.')) = cs :=
    List.takeWhile_append_dropWhile _ _
  unfold pyfloatUnsigned at h
  cases hdrop : cs.dropWhile (fun c => !(c == '.')) with
  | nil =>
    rw [hdrop] at h hsplit
    dsimp only at h
    by_cases hemp : (cs.takeWhile (fun c => !(c == '.'))).isEmpty = true
    · rw [if_pos hemp] at h
      exact absurd h (by simp)
    · rw [if_neg hemp] at h
      rcases Option.map_eq_some'.mp h with ⟨n, hn, _⟩
      intro c hc
      left
      rw [List.append_nil] at hsplit
      rw [← hsplit] at hc
      exact digitsVal?_isSome_mem _ n hn c hc
  | cons x fp =>
    rw [hdrop] at h hsplit
    dsimp only at h
    by_cases hemp : ((cs.takeWhile (fun c => !(c == '.'))).isEmpty && fp.isEmpty) = true
    · rw [if_pos hemp] at h
      exact absurd h (by simp)
    · rw [if_neg hemp] at h
      rcases Option.bind_eq_some.mp h with ⟨i, hi, hmap⟩
      rcases Option.map_eq_some'.mp hmap with ⟨f, hf, _⟩
      have hx : x = '.' := by
        have hw := dropWhile_cons_pred (fun c => !(c == '.')) cs x fp hdrop
        simpa using hw
      intro c hc
      rw [← hsplit] at hc
      rcases List.mem_append.mp hc with hm1 | hm2
      · left
        exact digitsVal?_isSome_mem _ i hi c hm1
      · rcases List.mem_cons.mp hm2 with rfl | hm3
        · right
          exact hx
        · left
          exact digitsVal?_isSome_mem _ f hf c hm3

theorem digit_toNat_ranges (m : Char) (hm : (digitVal? m).isSome = true) :
    (0x30 ≤ m.toNat ∧ m.toNat ≤ 0x39) ∨ (0x660 ≤ m.toNat ∧ m.toNat ≤ 0x669) ∨
    (0x6F0 ≤ m.toNat ∧ m.toNat ≤ 0x6F9) ∨ (0xFF10 ≤ m.toNat ∧ m.toNat ≤ 0xFF19) := by
  unfold digitVal? at hm
  split_ifs at hm with h1 h2 h3 h4
  · exact Or.inl h1
  · exact Or.inr (Or.inl h2)
  · exact Or.inr (Or.inr (Or.inl h3))
  · exact Or.inr (Or.inr (Or.inr h4))
  · simp at hm

theorem lowerChar_digit_or_dot (m : Char)
    (hm : (digitVal? m).isSome = true ∨ m = '.') :
    lowerChar m = m := by
  rcases hm with hm | hm
  · have h := digit_toNat_ranges m hm
    unfold lowerChar
    rw [if_neg (by rcases h with h | h | h | h <;> omega)]
  · rw [hm]
    decide

theorem digit_or_dot_ne (m w : Char)
    (hm : (digitVal? m).isSome = true ∨ m = '.')
    (hw : digitVal? w = none) (hwd : ¬ w = '.') : ¬ m = w := by
  intro he
  rcases hm with hm | hm
  · rw [he, hw] at hm
    simp at hm
  · rw [hm] at he
    exact hwd he.symm

theorem not_word (m : Char) (rest w : List Char) (w0 : Char)
    (hm : (digitVal? m).isSome = true ∨ m = '.')
    (hw : digitVal? w0 = none) (hwd : ¬ w0 = '.') :
    lowerEq (m :: rest) (w0 :: w) = false := by
  unfold lowerEq
  rw [List.map_cons]
  apply beq_eq_false_iff_ne.mpr
  intro heq
  injection heq with heq1 heq2
  rw [lowerChar_digit_or_dot m hm] at heq1
  exact digit_or_dot_ne m w0 hm hw hwd heq1

theorem nchar_digit_or_dot (x : Char)
    (hx : (digitVal? x).isSome = true ∨ x = '.') :
    (digitVal? (normalize_digits_char x)).isSome = true ∨ normalize_digits_char x = '.' := by
  rcases hx with hx | hx
  · left
    rw [digitVal?_normalize]
    exact hx
  · right
    rw [hx]
    exact normalize_digits_char_eq_self '.' (by decide)

theorem stripUS_id (prev : Char) (cs : List Char) (h : ∀ c ∈ cs, ¬ c = '_') :
    stripUS prev cs = some cs := by
  induction cs generalizing prev with
  | nil => rfl
  | cons c rest ih =>
    unfold stripUS
    rw [if_neg (h c (by simp))]
    rw [ih c (fun d hd => h d (by simp [hd]))]
    rfl

theorem stripUnderscores_id (cs : List Char) (h : ∀ c ∈ cs, ¬ c = '_') :
    stripUnderscores cs = some cs := by
  cases cs with
  | nil => rfl
  | cons c rest =>
    simp only [stripUnderscores]
    rw [if_neg (h c (by simp)), stripUS_id c rest (fun d hd => h d (by simp [hd]))]
    rfl

theorem parse_amount_of_spec (s : String) (v : ℚ)
    (h : specDecimalValue? s = some v) :
    pyfloat (normalize_digits (pystrip s)) = some (PyVal.finite v) := by
  unfold specDecimalValue? at h
  have hchars := pyfloatUnsigned_chars _ v h
  show pyfloatSigned ((pystrip s).data.map normalize_digits_char) = some (PyVal.finite v)
  cases hcs : (pystrip s).data with
  | nil =>
    rw [hcs] at h
    simp [pyfloatUnsigned] at h
  | cons c rest =>
    rw [hcs] at h hchars
    have hc0 : (digitVal? c).isSome = true ∨ c = '.' := hchars c (by simp)
    rw [List.map_cons]
    have hmchars : ∀ m ∈ (normalize_digits_char c :: rest.map normalize_digits_char),
        (digitVal? m).isSome = true ∨ m = '.' := by
      intro m hm
      rcases List.mem_cons.mp hm with rfl | hm2
      · exact nchar_digit_or_dot c hc0
      · rcases List.mem_map.mp hm2 with ⟨x, hx, rfl⟩
        exact nchar_digit_or_dot x (hchars x (by simp [hx]))
    have hmc := nchar_digit_or_dot c hc0
    rw [pyfloatSigned_not_sign _ _ (digit_or_dot_ne _ _ hmc (by decide) (by decide))
      (digit_or_dot_ne _ _ hmc (by decide) (by decide))]
    unfold pyfloatNoSign
    rw [not_word _ _ _ _ hmc (by decide) (by decide),
      not_word _ _ _ _ hmc (by decide) (by decide),
      not_word _ _ _ _ hmc (by decide) (by decide)]
    simp only [Bool.false_eq_true, if_false]
    have hfin : pyfloatFinite (normalize_digits_char c :: rest.map normalize_digits_char) =
        some v := by
      unfold pyfloatFinite
      rw [stripUnderscores_id _
        (fun m hm => digit_or_dot_ne _ _ (hmchars m hm) (by decide) (by decide))]
      have hnoe : (normalize_digits_char c :: rest.map normalize_digits_char).dropWhile
          (fun m => !(m == 'e' || m == 'E')) = [] := by
        rw [List.dropWhile_eq_nil_iff]
        intro m hm
        have hmd := hmchars m hm
        have he1 : ¬ m = 'e' := digit_or_dot_ne _ _ hmd (by decide) (by decide)
        have he2 : ¬ m = 'E' := digit_or_dot_ne _ _ hmd (by decide) (by decide)
        simp [he1, he2]
      rw [Option.some_bind, hnoe]
      rw [← List.map_cons, pyfloatUnsigned_map]
      exact h
    rw [hfin]
    rfl

/-- C6 (amended): `parse_amount` never returns a finite non-positive
value; every string of optional surrounding whitespace, digit glyphs
(Latin, Arabic-Indic, Extended Arabic-Indic or fullwidth) and at most one
decimal separator whose value is positive is accepted with exactly that
finite value — the translation table of `normalize_digits` (even with its
two missing Extended Arabic-Indic entries) never changes a digit's value,
matching CPython's own Unicode-digit handling in `float` — and such a
string whose value is `<= 0` is rejected with `None`; but the non-finite
parses pass through: `"nan"` yields nan, `"inf"` yields `+inf` (both
escape the `amount <= 0` rejection), while `"-inf"` is rejected. -/
theorem parse_amount_spec :
    (∀ s q, parse_amount s = some (PyVal.finite q) → 0 < q) ∧
    (∀ s v, specDecimalValue? s = some v → 0 < v →
      parse_amount s = some (PyVal.finite v)) ∧
    (∀ s v, specDecimalValue? s = some v → v ≤ 0 → parse_amount s = none) ∧
    parse_amount "nan" = some PyVal.nan ∧
    parse_amount "inf" = some (PyVal.inf false) ∧
    parse_amount "-inf" = none := by
  refine ⟨?_, ?_, ?_, by decide, by decide, by decide⟩
  · intro s q h
    cases hp : pyfloat (normalize_digits (pystrip s)) with
    | none => simp [parse_amount, hp] at h
    | some val =>
      simp only [parse_amount, hp] at h
      by_cases hle : pyLe0 val = true
      · rw [if_pos hle] at h
        exact absurd h (by simp)
      · rw [if_neg hle] at h
        rcases Option.some.inj h with rfl
        simp only [pyLe0, decide_eq_true_eq] at hle
        exact lt_of_not_le hle
  · intro s v h hv
    simp only [parse_amount, parse_amount_of_spec s v h]
    rw [if_neg (by simp only [pyLe0, decide_eq_true_eq]; exact not_le.mpr hv)]
  · intro s v h hv
    simp only [parse_amount, parse_amount_of_spec s v h]
    rw [if_pos (by simp only [pyLe0, decide_eq_true_eq]; exact hv)]

/-- C6 (counterexample): the input `"nan"` does not represent a strictly
positive decimal value, yet `parse_amount` neither rejects it with `None`
nor returns a decimal value: CPython's `float("nan")` parses, the
`amount <= 0` test is `False` for nan, and the nan is returned. -/
theorem parse_amount_nan_cex :
    parse_amount "nan" = some PyVal.nan ∧
    PyVal.nan.isFinite = false ∧
    ¬ parse_amount "nan" = none := by decide

/-- Witness for C6 (amended): the Arabic-Indic string `" ٢٣.٥ "` is in
the spec grammar with positive value `23.5` and parses to exactly that
finite value. -/
theorem parse_amount_spec_witness :
    specDecimalValue? " ٢٣.٥ " = some (Rat.divInt 47 2) ∧ 0 < Rat.divInt 47 2 ∧
    parse_amount " ٢٣.٥ " = some (PyVal.finite (Rat.divInt 47 2)) := by
  refine ⟨by decide, by decide, ?_⟩
  exact parse_amount_spec.2.1 " ٢٣.٥ " (Rat.divInt 47 2) (by decide) (by decide)

/-- C4 (counterexample): monetary values are not persisted as exact
decimal quantities — the value the program stores for the amount text
`"0.1"` is the binary64 rounding of `1/10`, which differs from `1/10`. -/
theorem stored_not_exact_cex :
    parse_amount_stored "0.1" ≠ some (Rat.divInt 1 10) := by decide

/-- C4 (amended): monetary values are persisted as IEEE-754 binary64
floating point (Python `float`, SQLite `REAL`), not as exact decimals;
the stored value of `"0.1"` is `3602879701896397 / 2 ^ 55 ≠ 1/10`, and
representation error accumulates across additions: the stored sum of the
stored `"0.1"` and `"0.2"` differs from the stored `"0.3"`. -/
theorem stored_binary64 :
    parse_amount_stored "0.1" = some (Rat.divInt 3602879701896397 (2 ^ 55)) ∧
    Rat.divInt 3602879701896397 (2 ^ 55) ≠ Rat.divInt 1 10 ∧
    storedAdd ((parse_amount_stored "0.1").getD 0) ((parse_amount_stored "0.2").getD 0) ≠
      (parse_amount_stored "0.3").getD 0 := by decide
